import Mathlib

/-!
# Verification of the botbase-backend RAG pipeline

Shallow embedding of the RAG ingestion-and-retrieval pipeline of the
botbase backend (`server/rag.ts`, `server/db.ts`, `server/billing.ts`,
`server/routers/chat.router.ts`) together with proofs and refutations of
the specification's claims.

JavaScript strings are modelled as `List Char` (`.length` is the list
length, `substring`/`slice` are `take`/`drop`).  JavaScript numbers that
carry scores/similarities are modelled as `ℚ`; database integer columns as
`ℕ`/`ℤ`.  Fallible calls to external collaborators (database inserts,
embedding provider, chat model) are modelled as `Except String`-valued
oracles supplied through environment records; the `String` is the thrown
error's `.message`.
-/

namespace Botbase

/-- JavaScript strings, modelled as lists of characters. -/
abbrev Str := List Char

/-- Conversion from Lean string literals to the model's strings. -/
def toL (s : String) : Str := s.toList

/-- The whitespace class used by JavaScript `String.prototype.trim` and by
the regex class `\s`, restricted to the code points that occur in this
code base (ASCII whitespace plus NBSP). -/
def isJsWs (c : Char) : Bool :=
  c = ' ' || c = '\t' || c = '\n' || c = '\x0d' || c = '\x0b' || c = '\x0c' ||
  c = ' '

/-- `pat` is a prefix of `l` (used to locate regex literals in a scan). -/
def startsWith : Str → Str → Bool
  | [], _ => true
  | _ :: _, [] => false
  | p :: ps, c :: cs => p = c && startsWith ps cs

/-- JavaScript `String.prototype.trim`: drop leading and trailing
whitespace. -/
def jsTrim (s : Str) : Str :=
  ((s.dropWhile isJsWs).reverse.dropWhile isJsWs).reverse

/-- Search for the first occurrence of `cls` in the list; on success return
the suffix that follows that occurrence.  This is how a lazy regex
quantifier (`[\s\S]*?`) finds the nearest closing delimiter. -/
def dropThrough (cls : Str) : Str → Option Str
  | [] => none
  | c :: cs =>
    if startsWith cls (c :: cs) then some ((c :: cs).drop cls.length)
    else dropThrough cls cs

/-- One global-replace pass of the regex `opn[\s\S]*?cls` with the empty
replacement, as performed by `input.replace(/.../g, '')`: scan left to
right; at the first position where `opn` matches, lazily find the nearest
following `cls`; delete through it and continue scanning after the match.
If an `opn` occurrence has no closing `cls` anywhere to its right, no
further match of the pattern can start at or after that position (any
later match would need a `cls` occurrence even further right), so the rest
is kept unchanged.

The recursion is driven by a fuel parameter so that the definition is
structural (and hence evaluates inside the kernel); every step consumes at
least one character, so fuel equal to the string length (supplied by
`removeDelim`) always suffices and the fuel-exhausted branch is
unreachable. -/
def removeDelimF (opn cls : Str) : ℕ → Str → Str
  | _, [] => []
  | 0, l => l
  | fuel + 1, c :: cs =>
    if startsWith opn (c :: cs) then
      match dropThrough cls ((c :: cs).drop opn.length) with
      | some rest => removeDelimF opn cls fuel rest
      | none => c :: cs
    else c :: removeDelimF opn cls fuel cs

/-- Remove every non-overlapping lazy match of `opn[\s\S]*?cls`. -/
def removeDelim (opn cls : Str) (s : Str) : Str :=
  removeDelimF opn cls s.length s

/-- `sanitized.substring(0, 5000)` applied when the length exceeds 5000. -/
def truncate5000 (s : Str) : Str :=
  if 5000 < s.length then s.take 5000 else s

/-- `sanitizeUserInput` from `server/rag.ts`:
```js
if (!input) return '';
let sanitized = input
  .replace(/```[\s\S]*?```/g, '')
  .replace(/\x7b\x7b[\s\S]*?\x7d\x7d/g, '')   // double-brace template regions
  .replace(/\$\x7b[\s\S]*?\x7d/g, '')         // dollar-brace interpolations
  .trim();
if (sanitized.length > 5000) sanitized = sanitized.substring(0, 5000);
return sanitized;
```
-/
def sanitizeUserInput (input : Str) : Str :=
  if input.isEmpty then []
  else
    truncate5000 (jsTrim
      (removeDelim (toL "$" ++ ['\x7b']) ['\x7d']
        (removeDelim ['\x7b', '\x7b'] ['\x7d', '\x7d']
          (removeDelim (toL "```") (toL "```") input))))

/-! ## Document chunking (`server/rag.ts`) -/

/-- `content.substring(start, e)` for `0 ≤ start ≤ e`. -/
def cdSlice (content : Str) (start e : ℤ) : Str :=
  (content.drop start.toNat).take (e - start).toNat

/-- The body of `chunkDocument`'s `while (start < content.length)` loop:
```js
const end = Math.min(start + chunkSize, content.length);
const chunk = content.substring(start, end).trim();
if (chunk.length > 0) chunks.push(chunk);
start = end - overlap;
if (start < 0) break;
```
driven by a fuel parameter: `none` means the loop performed `fuel`
iterations without exiting, `some acc` means it exited (either because
`start` reached the length or because the `start < 0` break fired) with
`acc` as the accumulated chunk list. -/
def cdLoop (content : Str) (size ov : ℤ) : ℕ → ℤ → List Str → Option (List Str)
  | 0, start, acc => if (content.length : ℤ) ≤ start then some acc else none
  | fuel + 1, start, acc =>
    if (content.length : ℤ) ≤ start then some acc
    else
      let e := min (start + size) (content.length : ℤ)
      let chunk := jsTrim (cdSlice content start e)
      let acc' := if chunk.isEmpty then acc else acc ++ [chunk]
      let start' := e - ov
      if start' < 0 then some acc' else cdLoop content size ov fuel start' acc'

/-- `chunkDocument(content, chunkSize, overlap)` from `server/rag.ts`
(fixed-width mode; defaults `chunkSize = 1000`, `overlap = 200`).  Returns
`none` when the loop fails to exit within `fuel` iterations; a run of the
JavaScript function terminates if and only if some fuel yields `some`. -/
def chunkDocument (content : Str) (size ov : ℤ) (fuel : ℕ) : Option (List Str) :=
  if content.isEmpty then some []
  else
    (cdLoop content size ov fuel 0 []).map
      (fun cs => if cs.isEmpty then [content] else cs)

/-! ## Sentence-based chunking (`splitBySentences` / `intelligentChunk`) -/

/-- Sentence-boundary characters of the regex `(?<=[.!?])\s+`. -/
def isSentEnd (c : Char) : Bool := c = '.' || c = '!' || c = '?'

/-- The scan behind `content.split(/(?<=[.!?])\s+/)`.  State `none` means
the scanner is inside a separator (consuming the greedy `\s+` run that
followed a sentence-ending character); `some acc` means it is building a
segment whose characters are held reversed in `acc`.  A split happens
exactly when the previous character (head of `acc`) is `.`, `!` or `?` and
the current character is whitespace — the lookbehind of the regex. -/
def sbsGo : Option Str → Str → List Str
  | none, [] => [[]]
  | none, c :: cs => if isJsWs c then sbsGo none cs else sbsGo (some [c]) cs
  | some acc, [] => [acc.reverse]
  | some [], c :: cs => sbsGo (some [c]) cs
  | some (p :: acc), c :: cs =>
    if isSentEnd p && isJsWs c then (p :: acc).reverse :: sbsGo none cs
    else sbsGo (some (c :: p :: acc)) cs

/-- `splitBySentences` from `server/rag.ts`:
`content.split(/(?<=[.!?])\s+/).filter((s) => s.trim().length > 0)`. -/
def splitBySentences (content : Str) : List Str :=
  (sbsGo (some []) content).filter fun s => !(jsTrim s).isEmpty

/-- The accumulation loop of `intelligentChunk`:
```js
for (const sentence of sentences) {
  const testChunk = currentChunk ? currentChunk + ' ' + sentence : sentence;
  if (testChunk.length <= targetChunkSize) currentChunk = testChunk;
  else { if (currentChunk) chunks.push(currentChunk); currentChunk = sentence; }
}
if (currentChunk) chunks.push(currentChunk);
```
The first argument of the recursion is `currentChunk`; emitted chunks are
returned in order. -/
def icLoop (t : ℕ) : Str → List Str → List Str
  | cur, [] => if cur.isEmpty then [] else [cur]
  | cur, s :: ss =>
    let test := if cur.isEmpty then s else cur ++ ' ' :: s
    if test.length ≤ t then icLoop t test ss
    else if cur.isEmpty then icLoop t s ss
    else cur :: icLoop t s ss

/-- `intelligentChunk(content, targetChunkSize)` from `server/rag.ts`
(default `targetChunkSize = 1000`). -/
def intelligentChunk (content : Str) (t : ℕ) : List Str :=
  icLoop t [] (splitBySentences content)

/-! ## Context assembly (`estimateTokens` / `buildRAGContext`) -/

/-- `estimateTokens(text) = Math.ceil(text.length / 4)`. -/
def estimateTokens (s : Str) : ℕ := (s.length + 3) / 4

/-- One element of `RAGContext['chunks']` as produced by the rag-level
`vectorSearch` mapping. -/
structure RagChunk where
  content : Str
  similarity : ℚ
  documentId : ℕ
  title : Str
  url : Option Str
deriving DecidableEq

/-- The `RAGContext` record returned by `buildRAGContext`. -/
structure RAGContextS where
  chunks : List RagChunk
  totalTokens : ℕ
deriving DecidableEq

/-- The selection loop of `buildRAGContext`: greedily accept chunks while
the running token total stays within `maxTokens`; the first chunk that
would exceed the budget hits the `break`.  Returns the selected chunks and
the final running total. -/
def buildLoop (maxT : ℕ) : ℕ → List RagChunk → List RagChunk × ℕ
  | tot, [] => ([], tot)
  | tot, c :: cs =>
    let ct := estimateTokens c.content
    if tot + ct ≤ maxT then
      let r := buildLoop maxT (tot + ct) cs
      (c :: r.1, r.2)
    else ([], tot)

/-- `buildRAGContext(chunks, maxTokens)` from `server/rag.ts`
(default `maxTokens = 2000`). -/
def buildRAGContext (chunks : List RagChunk) (maxT : ℕ) : RAGContextS :=
  ⟨(buildLoop maxT 0 chunks).1, (buildLoop maxT 0 chunks).2⟩

/-! ## Joining and whitespace normalisation (used to state C6) -/

/-- Tail part of joining strings with single spaces. -/
def joinSpTail : List Str → Str
  | [] => []
  | s :: ss => ' ' :: (s ++ joinSpTail ss)

/-- Join a list of strings with single spaces (`chunks.join(' ')`). -/
def joinSp : List Str → Str
  | [] => []
  | s :: ss => s ++ joinSpTail ss

/-- Erase all whitespace characters (the "modulo whitespace" view of a
string's content). -/
def stripWs (s : Str) : Str := s.filter fun c => !isJsWs c

/-- Concatenation of the whitespace-stripped members of a string list. -/
def stripConcat : List Str → Str
  | [] => []
  | s :: ss => stripWs s ++ stripConcat ss

/-! ## Relational model of the vector store (`server/db.ts`) -/

/-- The `resource_status` enum of `drizzle/schema.ts`. -/
inductive DocStatus where
  | pending
  | processing
  | completed
  | failed
deriving DecidableEq

/-- A row of the `documents` table (the columns the search touches). -/
structure DocRow where
  id : ℕ
  projectId : ℕ
  status : DocStatus
  title : Str
  metadataUrl : Option Str
deriving DecidableEq

/-- A row of the `document_chunks` table. -/
structure ChunkRow where
  id : ℕ
  documentId : ℕ
  content : Str
deriving DecidableEq

/-- A row of the `embeddings` table. -/
structure EmbRow where
  id : ℕ
  chunkId : ℕ
  documentId : ℕ
  projectId : ℕ
  vector : List ℚ
deriving DecidableEq

/-- The tables touched by the similarity search. -/
structure Db where
  documents : List DocRow
  chunks : List ChunkRow
  embeddings : List EmbRow
deriving DecidableEq

/-- A row of the result set of `db.vectorSearch`'s SQL query
(`e.id, e.chunk_id, e.document_id, dc.content, d.title, d.metadata,
similarity`). -/
structure SearchRow where
  id : ℕ
  chunkId : ℕ
  documentId : ℕ
  content : Str
  title : Str
  metadataUrl : Option Str
  similarity : ℚ
deriving DecidableEq

/-- Insert a row into a similarity-descending list (one step of the model
of `ORDER BY similarity DESC`; SQL leaves tie order unspecified, and no
tiebreaker is given in the query, so any fixed tie order is a faithful
model). -/
def insertBySim (r : SearchRow) : List SearchRow → List SearchRow
  | [] => [r]
  | x :: xs => if x.similarity < r.similarity then r :: x :: xs else x :: insertBySim r xs

/-- `ORDER BY similarity DESC` as an insertion sort. -/
def sortBySimDesc (l : List SearchRow) : List SearchRow := l.foldr insertBySim []

/-- `db.vectorSearch(projectId, vector, limit, threshold)` from
`server/db.ts` (defaults `limit = 5`, `threshold = 0.7`):
```sql
SELECT e.id, e.chunk_id, e.document_id, dc.content, d.title, d.metadata,
       (1 - (e.vector <=> $vec)) AS similarity
FROM embeddings e
JOIN document_chunks dc ON e.chunk_id = dc.id
JOIN documents d ON e.document_id = d.id
WHERE e.project_id = $projectId AND (1 - (e.vector <=> $vec)) > $threshold
ORDER BY similarity DESC
LIMIT $limit
```
The pgvector scoring expression `1 - (e.vector <=> $vec)` (cosine
similarity) is an external operator over floats; it is abstracted as the
parameter `sim`.  Primary keys are assumed unique, so each inner join is
realised with `find?`.  Note that the query restricts rows by
`e.project_id` and by the similarity threshold only — there is **no
condition on `d.status`**. -/
def dbVectorSearch (db : Db) (sim : List ℚ → List ℚ → ℚ) (projectId : ℕ)
    (vector : List ℚ) (lim : ℕ) (threshold : ℚ) : List SearchRow :=
  let joined := db.embeddings.filterMap fun e =>
    match db.chunks.find? (fun dc => dc.id == e.chunkId),
          db.documents.find? (fun d => d.id == e.documentId) with
    | some dc, some d =>
      if e.projectId = projectId ∧ threshold < sim e.vector vector then
        some ⟨e.id, e.chunkId, e.documentId, dc.content, d.title, d.metadataUrl,
              sim e.vector vector⟩
      else none
    | _, _ => none
  (sortBySimDesc joined).take lim

/-! ## Provider environments -/

/-- The response value of a provider call, a JSON-like value used to model
the duck-typed access `response?.choices?.[0]?.message?.content`. -/
inductive JVal where
  | jstr (s : Str)
  | jnum (q : ℚ)
  | jnull
  | jundefined
  | jarr (elems : List JVal)
  | jobj (fields : List (String × JVal))

/-- `typeof v === 'string'` on a JSON-like value. -/
def JVal.isStr : JVal → Bool
  | .jstr _ => true
  | _ => false

/-- `v?.k`: field access with optional chaining — any non-object (including
`null`/`undefined`) yields `undefined`. -/
def jfield (v : JVal) (k : String) : JVal :=
  match v with
  | .jobj fields => (fields.lookup k).getD .jundefined
  | _ => .jundefined

/-- `v?.[i]`: index access with optional chaining. -/
def jindex (v : JVal) (i : ℕ) : JVal :=
  match v with
  | .jarr elems => (elems.get? i).getD .jundefined
  | _ => .jundefined

/-- `response?.choices?.[0]?.message?.content`. -/
def extractContent (resp : JVal) : JVal :=
  jfield (jfield (jindex (jfield resp "choices") 0) "message") "content"

/-- One message of an `invokeLLM` request. -/
structure ChatMsg where
  role : Str
  content : Str

/-- The chunk rows passed to `db.createDocumentChunkBatch`. -/
structure ChunkInsert where
  documentId : ℕ
  projectId : ℕ
  content : Str
  chunkIndex : ℕ
  tokenCount : ℕ
deriving DecidableEq

/-- The embedding rows passed to `db.createEmbeddingBatch`. -/
structure EmbedInsert where
  chunkId : ℕ
  documentId : ℕ
  projectId : ℕ
  vector : List ℚ
  model : Str
deriving DecidableEq

/-- The external collaborators of the RAG pipeline: the embedding
provider, the storage layer's batch inserts, the chat model, and the
vector store contents with its similarity operator.  Fallible calls return
`Except String`; the `String` is the thrown error's message. -/
structure RagEnv where
  embed : Str → Except String (List ℚ)
  insertChunks : List ChunkInsert → Except String (List ℕ)
  insertEmbeds : List EmbedInsert → Except String Unit
  llm : List ChatMsg → Except String JVal
  db : Db
  sim : List ℚ → List ℚ → ℚ

/-- Default embedding model identifier (`OPENAI_EMBEDDING_MODEL`). -/
def embeddingModelId : Str := toL "text-embedding-3-small"

/-- `generateEmbedding(text)` from `server/rag.ts`: reject blank text with
`'Text cannot be empty'`, otherwise call the provider.  The second
component records the texts actually sent to the provider (used to state
claims about sanitization). -/
def generateEmbedding (env : RagEnv) (text : Str) :
    Except String (List ℚ) × List Str :=
  if (jsTrim text).isEmpty then (.error "Text cannot be empty", [])
  else (env.embed text, [text])

/-- `generateEmbeddingsBatch(chunks)` from `server/rag.ts`.  The source
issues the texts in sub-batches of 10 through `Promise.all` and aborts the
whole call on the first failure; with a pure provider oracle and the
in-request-order tie-break for `Promise.all` rejections, the sub-batch
boundaries change neither the result nor its order, so the model processes
the texts in order.  The second component is the provider request trace up
to the failure point. -/
def genEmbsGo (env : RagEnv) : List Str → Except String (List (List ℚ)) × List Str
  | [] => (.ok [], [])
  | c :: cs =>
    match generateEmbedding env c with
    | (.error e, tr) => (.error e, tr)
    | (.ok v, tr) =>
      match genEmbsGo env cs with
      | (.error e, trs) => (.error e, tr ++ trs)
      | (.ok vs, trs) => (.ok (v :: vs), tr ++ trs)

/-- `vectorSearch(projectId, query, limit, threshold)` from `server/rag.ts`
(defaults `limit = 5`, `threshold = 0.7`): blank queries return `[]`; the
query text is embedded and the vector store searched; any error is caught
and degraded to `[]` (fail-soft).  The second component records the texts
sent to the embedding provider. -/
def ragVectorSearch (env : RagEnv) (projectId : ℕ) (query : Str) (lim : ℕ)
    (threshold : ℚ) : List RagChunk × List Str :=
  if (jsTrim query).isEmpty then ([], [])
  else
    match generateEmbedding env query with
    | (.error _, tr) => ([], tr)
    | (.ok qv, tr) =>
      let rows := dbVectorSearch env.db env.sim projectId qv lim threshold
      (rows.map fun row =>
        ⟨row.content, row.similarity, row.documentId, row.title, row.metadataUrl⟩, tr)

/-! ## Prompt formatting and response generation -/

/-- Tail part of `array.join(sep)`. -/
def joinWithTail (sep : Str) : List Str → Str
  | [] => []
  | s :: ss => sep ++ s ++ joinWithTail sep ss

/-- `array.join(sep)`. -/
def joinWith (sep : Str) : List Str → Str
  | [] => []
  | s :: ss => s ++ joinWithTail sep ss

/-- The per-chunk template of `formatContextForPrompt`:
`[Source (index+1): title (url)?]` followed by a newline and the chunk
content. -/
def sourceLabel (i : ℕ) (ch : RagChunk) : Str :=
  toL "[Source " ++ toL (toString (i + 1)) ++ toL ": " ++ ch.title ++
    (match ch.url with
      | some u => toL " (" ++ u ++ toL ")"
      | none => []) ++
    toL "]" ++ '\n' :: ch.content

/-- `formatContextForPrompt(context)` from `server/rag.ts`: empty chunk
list gives the empty string; otherwise the labelled chunks joined by the
delimiter, under a fixed header. -/
def formatContextForPrompt (context : RAGContextS) : Str :=
  if context.chunks.isEmpty then []
  else
    toL "Context from knowledge base:\n\n" ++
      joinWith (toL "\n\n---\n\n")
        (context.chunks.enum.map fun p => sourceLabel p.1 p.2)

/-- The `'mini' | 'premium'` model selector. -/
inductive ModelType where
  | mini
  | premium
deriving DecidableEq

/-- The fixed system prompt of `generateRAGResponse`. -/
def systemPromptStr : Str :=
  toL "You are a helpful assistant. Use the provided context to answer questions accurately.\nIf the context doesn\x27t contain relevant information, say so clearly.\nAlways cite your sources when using information from the context."

/-- The fallback text returned when the provider response carries no
string at `choices[0].message.content`. -/
def unableMsg : Str := toL "Unable to generate response"

/-- `generateRAGResponse(query, context, model)` from `server/rag.ts`: the
prompt is the formatted context plus the sanitized query; the provider
call's response is probed with
`response?.choices?.[0]?.message?.content` and, when that is not a string,
the literal `'Unable to generate response'` is returned; a provider error
is rethrown.  (The `model` parameter is accepted but never read by the
source body.) -/
def generateRAGResponse (env : RagEnv) (query : Str) (context : RAGContextS)
    (_model : ModelType) : Except String Str :=
  let contextStr := formatContextForPrompt context
  let userMessage := contextStr ++ toL "\n\nUser question: " ++ sanitizeUserInput query
  match env.llm [⟨toL "system", systemPromptStr⟩, ⟨toL "user", userMessage⟩] with
  | .error e => .error e
  | .ok resp =>
    match extractContent resp with
    | .jstr s => .ok s
    | _ => .ok unableMsg

/-! ## Ingestion pipeline (`processDocument`) -/

/-- The observable outcome of one `processDocument` run: the document's
final status and error message (written by the durable
`db.updateDocument` calls), the chunk and embedding rows the run
persisted, and the value returned / error propagated to the caller. -/
structure ProcResult where
  finalStatus : DocStatus
  errorMessage : Option String
  persistedChunks : List ChunkInsert
  persistedEmbeddings : List EmbedInsert
  outcome : Except String Unit

/-- The chunk rows built for `db.createDocumentChunkBatch`:
`chunks.map((chunk, index) => ({documentId, projectId, content: chunk,
chunkIndex: index, metadata: {tokenCount: estimateTokens(chunk)}}))`. -/
def chunkInsertsOf (documentId projectId : ℕ) (chunks : List Str) :
    List ChunkInsert :=
  chunks.enum.map fun p =>
    { documentId := documentId
      projectId := projectId
      content := p.2
      chunkIndex := p.1
      tokenCount := estimateTokens p.2 }

/-- The embedding rows built for `db.createEmbeddingBatch`:
`embeddings.map((embedding, index) => ({chunkId: createdChunks[index].id,
documentId, projectId, vector: embedding, model: EMBEDDING_MODEL}))`. -/
def embedInsertsOf (documentId projectId : ℕ) (ids : List ℕ)
    (embs : List (List ℚ)) : List EmbedInsert :=
  (ids.zip embs).map fun p =>
    { chunkId := p.1, documentId := documentId, projectId := projectId
      vector := p.2, model := embeddingModelId }

/-- The body of `processDocument` after segmentation, taking the chunk
list as an argument (split out so branch analysis can abstract over the
segmenter's output): fail on zero chunks; persist the chunk rows; embed
the chunks in batch; fail on a count mismatch with the created rows;
persist one embedding per chunk; set status `completed`.  The `catch`
block sets status `failed`, records the error message, and rethrows. -/
def processGo (env : RagEnv) (documentId projectId : ℕ) (chunks : List Str) :
    ProcResult :=
  if chunks.isEmpty then
    { finalStatus := .failed
      errorMessage := some "No chunks generated from document"
      persistedChunks := []
      persistedEmbeddings := []
      outcome := .error "No chunks generated from document" }
  else
    match env.insertChunks (chunkInsertsOf documentId projectId chunks) with
    | .error e =>
      { finalStatus := .failed, errorMessage := some e
        persistedChunks := [], persistedEmbeddings := [], outcome := .error e }
    | .ok ids =>
      match (genEmbsGo env chunks).1 with
      | .error e =>
        { finalStatus := .failed, errorMessage := some e
          persistedChunks := chunkInsertsOf documentId projectId chunks
          persistedEmbeddings := [], outcome := .error e }
      | .ok embs =>
        if embs.length ≠ ids.length then
          { finalStatus := .failed
            errorMessage := some "Embedding count mismatch with chunk count"
            persistedChunks := chunkInsertsOf documentId projectId chunks
            persistedEmbeddings := []
            outcome := .error "Embedding count mismatch with chunk count" }
        else
          match env.insertEmbeds (embedInsertsOf documentId projectId ids embs) with
          | .error e =>
            { finalStatus := .failed, errorMessage := some e
              persistedChunks := chunkInsertsOf documentId projectId chunks
              persistedEmbeddings := []
              outcome := .error e }
          | .ok _ =>
            { finalStatus := .completed, errorMessage := none
              persistedChunks := chunkInsertsOf documentId projectId chunks
              persistedEmbeddings := embedInsertsOf documentId projectId ids embs
              outcome := .ok () }

/-- `processDocument(documentId, projectId, content)` from
`server/rag.ts`: set status `processing` (durable write, immediately
overwritten by the terminal transition below, so only the terminal status
is recorded in the result); chunk with `intelligentChunk` (default target
1000); then run the persist/embed/verify pipeline of `processGo`.
Status writes are modelled as infallible state (the storage
collaborator's own availability is outside the pipeline). -/
def processDocument (env : RagEnv) (documentId projectId : ℕ) (content : Str) :
    ProcResult :=
  processGo env documentId projectId (intelligentChunk content 1000)

/-- All error messages an environment's collaborators can throw are
non-empty (a JavaScript `Error` is normally constructed with a message;
a thrown non-`Error` is replaced by `'Unknown error'` in the source's
`catch` block, which this model folds into the oracle's message). -/
def EnvErrorsNonempty (env : RagEnv) : Prop :=
  (∀ t e, env.embed t = .error e → e ≠ "") ∧
  (∀ l e, env.insertChunks l = .error e → e ≠ "") ∧
  (∀ l e, env.insertEmbeds l = .error e → e ≠ "")

/-! ## Chat turn (`server/routers/chat.router.ts`, `sendMessage`) -/

/-- The retrieval-and-generation fragment of the `sendMessage` procedure
(lines 67–87):
```js
// Sanitize user input
const sanitizedMessage = input.message;
const searchResults = await rag.vectorSearch(input.projectId, sanitizedMessage);
// Filter by relevance - placeholder
const relevantChunks = searchResults;
const context = rag.buildRAGContext(relevantChunks);
const response = await rag.generateRAGResponse(sanitizedMessage, context, input.model);
```
The second component is the trace of texts sent to the embedding
provider. -/
def sendMessageCore (env : RagEnv) (projectId : ℕ) (message : Str)
    (model : ModelType) : Except String Str × List Str :=
  let sanitizedMessage := message
  let sr := ragVectorSearch env projectId sanitizedMessage 5 (mkRat 7 10)
  let relevantChunks := sr.1
  let context := buildRAGContext relevantChunks 2000
  (generateRAGResponse env sanitizedMessage context model, sr.2)

/-! ## Usage metering (`server/billing.ts`) -/

/-- The plan selector. -/
inductive PlanType where
  | free
  | pro
  | enterprise
deriving DecidableEq

/-- The per-plan limit record of `getPlanLimits` (`-1` means unlimited). -/
structure PlanLimits where
  chatbots : ℤ
  messagesPerModelMini : ℤ
  messagesPerModelPremium : ℤ
  indexedPages : ℤ
deriving DecidableEq

/-- `getPlanLimits(planType)` from `server/billing.ts`, at the default
values of the `FREE_PLAN_*` environment variables. -/
def getPlanLimits : PlanType → PlanLimits
  | .free => ⟨3, 1000, 100, 100⟩
  | .pro => ⟨50, 100000, 10000, 10000⟩
  | .enterprise => ⟨-1, -1, -1, -1⟩

/-- The counters of a `usage_tracking` row read by `checkUsageLimits`. -/
structure UsageRow where
  id : ℕ
  messagesUsedMini : ℤ
  messagesUsedPremium : ℤ
  indexedPagesUsed : ℤ
deriving DecidableEq

/-- The `{ allowed, reason? }` result of `checkUsageLimits`. -/
structure LimitCheck where
  allowed : Bool
  reason : Option String
deriving DecidableEq

/-- The billing collaborators: the current `YYYY-MM` month and the
fallible `db.getOrCreateUsageTracking` lookup. -/
structure BillingEnv where
  monthNow : String
  getOrCreateUsage : ℕ → ℕ → String → Except String UsageRow

/-- `checkUsageLimits(userId, projectId, planType)` from
`server/billing.ts`: read or create the month's usage row inside a `try`;
compare each counter against its positive limit; any thrown error is
caught and answered with `{ allowed: true }`. -/
def checkUsageLimits (env : BillingEnv) (userId projectId : ℕ)
    (planType : PlanType) : LimitCheck :=
  let limits := getPlanLimits planType
  match env.getOrCreateUsage userId projectId env.monthNow with
  | .error _ => ⟨true, none⟩
  | .ok usage =>
    if 0 < limits.messagesPerModelMini ∧
        limits.messagesPerModelMini ≤ usage.messagesUsedMini then
      ⟨false, some "Mini model message limit exceeded"⟩
    else if 0 < limits.messagesPerModelPremium ∧
        limits.messagesPerModelPremium ≤ usage.messagesUsedPremium then
      ⟨false, some "Premium model message limit exceeded"⟩
    else if 0 < limits.indexedPages ∧
        limits.indexedPages ≤ usage.indexedPagesUsed then
      ⟨false, some "Indexed pages limit exceeded"⟩
    else ⟨true, none⟩

/-! ## Relevance filtering (absent from the source; modelled from spec) -/

/-- A scored retrieval result as used by the relevance filter. -/
structure ScoredResult where
  content : Str
  score : ℚ
deriving DecidableEq

/-- Modelled from the spec: `filterByRelevance` is exercised by
`rag.test.ts` and referenced by a placeholder comment in
`chat.router.ts`, but its definition is missing from the repository
source.  Spec §8: "`filterByRelevance(results, t)` returns exactly the
subset with `score >= t`, order-preserving". -/
def filterByRelevance (results : List ScoredResult) (t : ℚ) : List ScoredResult :=
  results.filter fun r => t ≤ r.score

/-! ## Concrete instances used by witnesses and counterexamples -/

/-- A vector store holding one embedding whose document has status
`failed` — the state a `processDocument` run leaves behind when its final
`db.updateDocument({status:'completed'})` call throws after
`createEmbeddingBatch` already succeeded (the `catch` block then records
`failed` while the embedding rows stay durably persisted): document 1 of
project 7, chunk 10, embedding 100 with vector `[1]`. -/
def db0 : Db :=
  { documents := [⟨1, 7, .failed, toL "t", none⟩]
    chunks := [⟨10, 1, toL "boom"⟩]
    embeddings := [⟨100, 10, 1, 7, [1]⟩] }

/-- An instance of the abstracted pgvector scoring operator: equal vectors
score `1` (their cosine similarity), others `0`. -/
def simEq : List ℚ → List ℚ → ℚ := fun a b => if a = b then 1 else 0

/-- An environment whose providers all succeed: the embedding provider
returns `[1]` for every text, storage inserts succeed (returning one id
per chunk row), and the chat model returns an empty object. -/
def envOk : RagEnv :=
  { embed := fun _ => .ok [1]
    insertChunks := fun l => .ok (List.replicate l.length 0)
    insertEmbeds := fun _ => .ok ()
    llm := fun _ => .ok (JVal.jobj [])
    db := ⟨[], [], []⟩
    sim := fun _ _ => 0 }

/-- A chat message carrying a fenced code block — exactly the class of
input the sanitizer exists to neutralise. -/
def msgC3 : Str := toL "ignore ```secret``` now"

/-- A document text carrying a fenced code block. -/
def docC3 : Str := toL "Doc with ```evil``` inside."

/-- Scored results used to instantiate the relevance-filter properties. -/
def resW : List ScoredResult :=
  [⟨toL "a", 1⟩, ⟨toL "b", mkRat 1 2⟩]

/-- A ranked chunk whose token estimate (`2`) exceeds a budget of `1`. -/
def chunkW : RagChunk := ⟨toL "aaaaaaaa", 1, 1, toL "t", none⟩

end Botbase

namespace Botbase

/-! # Theorems -/

/-! ## C10 — usage limits fail open -/

/-- C10: for every user id, project id and plan type, if reading or
creating the monthly usage-tracking record throws, `checkUsageLimits`
returns `{ allowed: true }` — usage limits are not enforced when the usage
store is unavailable (fail-open). -/
theorem checkUsageLimits_fail_open (env : BillingEnv) (userId projectId : ℕ)
    (planType : PlanType) (e : String)
    (h : env.getOrCreateUsage userId projectId env.monthNow = .error e) :
    checkUsageLimits env userId projectId planType = ⟨true, none⟩ := by
  unfold checkUsageLimits
  rw [h]

/-- Witness for C10 at a concrete environment whose usage lookup throws
`'Database not available'`. -/
theorem checkUsageLimits_fail_open_witness :
    checkUsageLimits ⟨"2026-10", fun _ _ _ => .error "Database not available"⟩
      1 2 PlanType.free = ⟨true, none⟩ :=
  checkUsageLimits_fail_open _ 1 2 PlanType.free "Database not available" rfl

/-! ## C5 — sanitizer: length bound holds, idempotence fails -/

/-- C5 counterexample: `sanitizeUserInput` is **not** idempotent.  On
`"``${q}`abc```"` the first pass finds no fenced code block (the only
triple backtick has no closer) but removing the `${q}` interpolation
joins the leading backticks with the trailing ones into `"```abc```"`,
which a second pass removes entirely. -/
theorem sanitizeUserInput_not_idempotent :
    sanitizeUserInput (sanitizeUserInput (toL "``${q}`abc```")) ≠
      sanitizeUserInput (toL "``${q}`abc```") := by decide

/-- C5 amended: the result of `sanitizeUserInput` never exceeds 5000
characters (idempotence, the other half of the claim, is refuted by the
counterexample). -/
theorem sanitizeUserInput_length_le (input : Str) :
    (sanitizeUserInput input).length ≤ 5000 := by
  unfold sanitizeUserInput
  split
  · simp
  · unfold truncate5000
    split
    · simp
    · omega

/-! ## C4 — relevance filtering (modelled from the spec) -/

/-- C4: `filterByRelevance` returns the order-preserved subset of results
whose score is at least the threshold: it is a sublist of the input,
every kept result clears the threshold, every clearing result (including
one whose score equals the threshold) is kept, `t = 0` keeps every result
(scores are similarities, hence nonnegative), and `t = 1` keeps only
results with score exactly `1`. -/
theorem filterByRelevance_spec (results : List ScoredResult) (t : ℚ) :
    (filterByRelevance results t).Sublist results ∧
    (∀ r ∈ filterByRelevance results t, t ≤ r.score) ∧
    (∀ r ∈ results, t ≤ r.score → r ∈ filterByRelevance results t) ∧
    ((∀ r ∈ results, 0 ≤ r.score) → filterByRelevance results 0 = results) ∧
    ((∀ r ∈ results, r.score ≤ 1) →
      ∀ r ∈ filterByRelevance results 1, r.score = 1) := by
  refine ⟨List.filter_sublist results, ?_, ?_, ?_, ?_⟩
  · intro r hr
    exact of_decide_eq_true (List.mem_filter.mp hr).2
  · intro r hr hscore
    exact List.mem_filter.mpr ⟨hr, by simpa using hscore⟩
  · intro hnn
    apply List.filter_eq_self.mpr
    intro r hr
    simpa using hnn r hr
  · intro hub r hr
    have h1 := (List.mem_filter.mp hr).2
    have h2 := hub r (List.mem_filter.mp hr).1
    have h1' : (1 : ℚ) ≤ r.score := by simpa using h1
    exact le_antisymm h2 h1'

/-- Witness for C4: on `[⟨"a", 1⟩, ⟨"b", 1/2⟩]`, threshold `0` keeps
everything and threshold `1` keeps only exact-1 scores. -/
theorem filterByRelevance_spec_witness :
    filterByRelevance resW 0 = resW ∧
    ∀ r ∈ filterByRelevance resW 1, r.score = 1 :=
  ⟨(filterByRelevance_spec resW 0).2.2.2.1 (by decide),
   (filterByRelevance_spec resW 1).2.2.2.2 (by decide)⟩

/-! ## C2 — `chunkDocument` does not terminate -/

/-- The `chunkDocument` loop on content `"abc"` with `chunkSize = 2` and
`overlap = 1` keeps `start` inside `{0, 1, 2}` forever (`0 → 1 → 2 → 2`),
so no amount of fuel makes it exit. -/
theorem cdLoop_abc_stuck :
    ∀ (fuel : ℕ) (start : ℤ), (start = 0 ∨ start = 1 ∨ start = 2) →
      ∀ acc, cdLoop (toL "abc") 2 1 fuel start acc = none := by
  intro fuel
  induction fuel with
  | zero =>
    rintro start (rfl | rfl | rfl) acc <;> simp [cdLoop, toL]
  | succ f ih =>
    rintro start (rfl | rfl | rfl) acc <;>
      · simp only [cdLoop, toL]
        norm_num
        exact ih _ (by norm_num) _

/-- C2 (code bug): `chunkDocument("abc", 2, 1)` never terminates — the
loop's `start` gets stuck at `length - overlap` because `overlap <
chunkSize` makes `end` stay at the content length; there is no
fall-back to non-overlapping windows for any overlap, contradicting the
claimed termination guarantee (with default `overlap = 200` the same
divergence hits every content of length ≥ 200, including the repository's
own test `chunkDocument(text, 500)`). -/
theorem chunkDocument_diverges (fuel : ℕ) :
    chunkDocument (toL "abc") 2 1 fuel = none := by
  unfold chunkDocument
  rw [cdLoop_abc_stuck fuel 0 (Or.inl rfl) []]
  rfl

/-! ## C7 — context assembly under the token budget -/

/-- Invariant of `buildLoop`: starting from a running total within budget,
the selected chunks are a prefix of the input, the final total is the
initial total plus the selected chunks' token estimates, the total never
exceeds the budget, and whenever input remains after the selection its
first chunk would have exceeded the budget. -/
theorem buildLoop_spec (maxT : ℕ) :
    ∀ (chunks : List RagChunk) (tot : ℕ), tot ≤ maxT →
      (buildLoop maxT tot chunks).1 =
          chunks.take (buildLoop maxT tot chunks).1.length ∧
      (buildLoop maxT tot chunks).2 =
          tot + ((buildLoop maxT tot chunks).1.map
            fun c => estimateTokens c.content).sum ∧
      (buildLoop maxT tot chunks).2 ≤ maxT ∧
      ∀ c cs, chunks.drop (buildLoop maxT tot chunks).1.length = c :: cs →
        maxT < (buildLoop maxT tot chunks).2 + estimateTokens c.content := by
  intro chunks
  induction chunks with
  | nil =>
    intro tot htot
    refine ⟨rfl, by simp [buildLoop], by simpa [buildLoop] using htot, ?_⟩
    intro c cs h
    simp [buildLoop] at h
  | cons x xs ih =>
    intro tot htot
    by_cases hle : tot + estimateTokens x.content ≤ maxT
    · obtain ⟨h1, h2, h3, h4⟩ := ih (tot + estimateTokens x.content) hle
      simp only [buildLoop, if_pos hle]
      refine ⟨?_, ?_, h3, ?_⟩
      · simpa using h1
      · simp only [List.map_cons, List.sum_cons]
        omega
      · intro c cs h
        exact h4 c cs (by simpa using h)
    · simp only [buildLoop, if_neg hle]
      refine ⟨rfl, by simp, htot, ?_⟩
      intro c cs h
      simp only [List.length_nil, List.drop_zero] at h
      cases h
      omega

/-- C7: `buildRAGContext` selects a greedy prefix of the ranked list whose
total token estimate (`⌈length/4⌉` per chunk) never exceeds `maxTokens`;
the total is exactly the sum over the selected chunks (so no chunk is
partially truncated); whenever a result is left unselected, the first such
result would have exceeded the budget (the `break`); and the empty input
yields an empty chunk list with zero tokens, never an error. -/
theorem buildRAGContext_spec (chunks : List RagChunk) (maxT : ℕ) :
    (buildRAGContext chunks maxT).chunks =
        chunks.take (buildRAGContext chunks maxT).chunks.length ∧
    (buildRAGContext chunks maxT).totalTokens =
        ((buildRAGContext chunks maxT).chunks.map
          fun c => estimateTokens c.content).sum ∧
    (buildRAGContext chunks maxT).totalTokens ≤ maxT ∧
    (∀ c cs, chunks.drop (buildRAGContext chunks maxT).chunks.length = c :: cs →
      maxT < (buildRAGContext chunks maxT).totalTokens +
        estimateTokens c.content) ∧
    buildRAGContext [] maxT = ⟨[], 0⟩ := by
  obtain ⟨h1, h2, h3, h4⟩ := buildLoop_spec maxT chunks 0 (Nat.zero_le maxT)
  exact ⟨h1, by simpa using h2, h3, h4, rfl⟩

/-- Witness for C7: with a budget of `1` token and a first chunk
estimating `2` tokens, nothing is selected and the stopping condition
reports that the first chunk would overflow. -/
theorem buildRAGContext_spec_witness :
    1 < (buildRAGContext [chunkW] 1).totalTokens +
      estimateTokens chunkW.content :=
  (buildRAGContext_spec [chunkW] 1).2.2.2.1 chunkW [] (by decide)

/-! ## C9 — malformed chat-model responses degrade, not fail -/

/-- C9: if the chat-model call succeeds but its response does not contain
a string at `choices[0].message.content`, `generateRAGResponse` returns
the literal `'Unable to generate response'` instead of raising an error,
so a malformed provider response never fails the chat turn. -/
theorem generateRAGResponse_malformed (env : RagEnv) (query : Str)
    (context : RAGContextS) (model : ModelType) (resp : JVal)
    (hok : env.llm [⟨toL "system", systemPromptStr⟩,
        ⟨toL "user", formatContextForPrompt context ++
          toL "\n\nUser question: " ++ sanitizeUserInput query⟩] = .ok resp)
    (hns : (extractContent resp).isStr = false) :
    generateRAGResponse env query context model = .ok unableMsg := by
  cases hE : extractContent resp with
  | jstr s => rw [hE] at hns; simp [JVal.isStr] at hns
  | jnum q => simp only [generateRAGResponse, hok, hE]
  | jnull => simp only [generateRAGResponse, hok, hE]
  | jundefined => simp only [generateRAGResponse, hok, hE]
  | jarr es => simp only [generateRAGResponse, hok, hE]
  | jobj fs => simp only [generateRAGResponse, hok, hE]

/-- Witness for C9 at a provider that answers with an empty object. -/
theorem generateRAGResponse_malformed_witness :
    generateRAGResponse envOk (toL "What is AI?") ⟨[], 0⟩ ModelType.mini =
      .ok unableMsg :=
  generateRAGResponse_malformed envOk (toL "What is AI?") ⟨[], 0⟩
    ModelType.mini (JVal.jobj []) rfl rfl

/-! ## C8 — ingestion failure and success transitions -/

/-- Every error of the batch embedding step is either the blank-input
rejection or an error thrown by the embedding provider. -/
theorem genEmbsGo_error (env : RagEnv) :
    ∀ (chunks : List Str) (e : String), (genEmbsGo env chunks).1 = .error e →
      e = "Text cannot be empty" ∨ ∃ t, env.embed t = .error e := by
  intro chunks
  induction chunks with
  | nil => intro e h; simp [genEmbsGo] at h
  | cons c cs ih =>
    intro e h
    by_cases hb : (jsTrim c).isEmpty
    · simp [genEmbsGo, generateEmbedding, hb] at h
      exact Or.inl h.symm
    · cases hemb : env.embed c with
      | error e' =>
        simp [genEmbsGo, generateEmbedding, hb, hemb] at h
        exact Or.inr ⟨c, h ▸ hemb⟩
      | ok v =>
        rcases hq : genEmbsGo env cs with ⟨r, tr⟩
        cases r with
        | error e'' =>
          simp [genEmbsGo, generateEmbedding, hb, hemb, hq] at h
          exact ih e (by rw [hq]; exact congrArg Except.error h)
        | ok vs =>
          simp [genEmbsGo, generateEmbedding, hb, hemb, hq] at h

/-- C8 for the post-segmentation pipeline: whenever `processGo` propagates
an error, the document's status has been set to `failed` with that
(non-empty) error message recorded; a run that completes without error
ends with status `completed` and no error message. -/
theorem processGo_status (env : RagEnv) (documentId projectId : ℕ)
    (chunks : List Str) (henv : EnvErrorsNonempty env) :
    (∀ e, (processGo env documentId projectId chunks).outcome = .error e →
      (processGo env documentId projectId chunks).finalStatus = .failed ∧
      (processGo env documentId projectId chunks).errorMessage = some e ∧
      e ≠ "") ∧
    (∀ u, (processGo env documentId projectId chunks).outcome = .ok u →
      (processGo env documentId projectId chunks).finalStatus = .completed ∧
      (processGo env documentId projectId chunks).errorMessage = none) := by
  obtain ⟨hembed, hchk, hemb⟩ := henv
  by_cases hc : chunks.isEmpty
  · refine ⟨?_, ?_⟩
    · intro e he
      simp only [processGo, if_pos hc] at he
      obtain rfl : "No chunks generated from document" = e := by
        simpa using he
      exact ⟨by simp [processGo, hc], by simp [processGo, hc], by decide⟩
    · intro u hu
      simp only [processGo, if_pos hc] at hu
      exact absurd hu (by simp)
  · cases hic : env.insertChunks (chunkInsertsOf documentId projectId chunks) with
    | error e' =>
      refine ⟨?_, ?_⟩
      · intro e he
        simp only [processGo, if_neg hc, hic] at he
        obtain rfl : e' = e := by simpa using he
        exact ⟨by simp [processGo, hc, hic], by simp [processGo, hc, hic],
          hchk _ _ hic⟩
      · intro u hu
        simp only [processGo, if_neg hc, hic] at hu
        exact absurd hu (by simp)
    | ok ids =>
      cases hge : (genEmbsGo env chunks).1 with
      | error e' =>
        refine ⟨?_, ?_⟩
        · intro e he
          simp only [processGo, if_neg hc, hic, hge] at he
          obtain rfl : e' = e := by simpa using he
          refine ⟨by simp [processGo, hc, hic, hge],
            by simp [processGo, hc, hic, hge], ?_⟩
          rcases genEmbsGo_error env chunks e' hge with h | ⟨t, ht⟩
          · subst h; decide
          · exact hembed _ _ ht
        · intro u hu
          simp only [processGo, if_neg hc, hic, hge] at hu
          exact absurd hu (by simp)
      | ok embs =>
        by_cases hlen : embs.length ≠ ids.length
        · refine ⟨?_, ?_⟩
          · intro e he
            simp only [processGo, if_neg hc, hic, hge, if_pos hlen] at he
            obtain rfl : "Embedding count mismatch with chunk count" = e := by
              simpa using he
            exact ⟨by simp [processGo, hc, hic, hge, hlen],
              by simp [processGo, hc, hic, hge, hlen], by decide⟩
          · intro u hu
            simp only [processGo, if_neg hc, hic, hge, if_pos hlen] at hu
            exact absurd hu (by simp)
        · cases hie : env.insertEmbeds (embedInsertsOf documentId projectId ids embs) with
          | error e' =>
            refine ⟨?_, ?_⟩
            · intro e he
              simp only [processGo, if_neg hc, hic, hge, if_neg hlen, hie] at he
              obtain rfl : e' = e := by simpa using he
              exact ⟨by simp [processGo, hc, hic, hge, hlen, hie],
                by simp [processGo, hc, hic, hge, hlen, hie], hemb _ _ hie⟩
            · intro u hu
              simp only [processGo, if_neg hc, hic, hge, if_neg hlen, hie] at hu
              exact absurd hu (by simp)
          | ok u' =>
            refine ⟨?_, ?_⟩
            · intro e he
              simp only [processGo, if_neg hc, hic, hge, if_neg hlen, hie] at he
              exact absurd he (by simp)
            · intro u hu
              exact ⟨by simp [processGo, hc, hic, hge, hlen, hie],
                by simp [processGo, hc, hic, hge, hlen, hie]⟩

/-- C8: whenever `processDocument` fails for any reason — including
segmentation producing zero chunks and the returned embedding count
differing from the created chunk-row count — the document's status is set
to `failed` with a non-empty error message recorded before the error is
propagated; a run that completes without error ends with the document's
status set to `completed`.  (Non-emptiness of externally thrown messages
is the `EnvErrorsNonempty` hypothesis; the pipeline's own messages are
non-empty literals.) -/
theorem processDocument_status (env : RagEnv) (documentId projectId : ℕ)
    (content : Str) (henv : EnvErrorsNonempty env) :
    (∀ e, (processDocument env documentId projectId content).outcome = .error e →
      (processDocument env documentId projectId content).finalStatus = .failed ∧
      (processDocument env documentId projectId content).errorMessage = some e ∧
      e ≠ "") ∧
    (∀ u, (processDocument env documentId projectId content).outcome = .ok u →
      (processDocument env documentId projectId content).finalStatus = .completed ∧
      (processDocument env documentId projectId content).errorMessage = none) :=
  processGo_status env documentId projectId (intelligentChunk content 1000) henv

/-- Witness for C8: with all-succeeding collaborators, processing the
document `"Hello there."` ends in status `completed`. -/
theorem processDocument_status_witness :
    (processDocument envOk 1 2 (toL "Hello there.")).finalStatus =
      DocStatus.completed := by
  have henv : EnvErrorsNonempty envOk := by
    unfold EnvErrorsNonempty envOk
    refine ⟨?_, ?_, ?_⟩ <;>
      · intro _ _ h
        exact nomatch h
  exact ((processDocument_status envOk 1 2 (toL "Hello there.") henv).2
    () rfl).1

/-! ## C1 — what the similarity search does and does not filter -/

/-- Members of an `insertBySim` result are the inserted row or members of
the original list. -/
theorem mem_insertBySim {a r : SearchRow} :
    ∀ {l}, a ∈ insertBySim r l → a = r ∨ a ∈ l := by
  intro l
  induction l with
  | nil =>
    intro h
    simp only [insertBySim, List.mem_singleton] at h
    exact Or.inl h
  | cons x xs ih =>
    intro h
    by_cases hlt : x.similarity < r.similarity
    · simp only [insertBySim, if_pos hlt, List.mem_cons] at h
      rcases h with h | h | h
      · exact Or.inl h
      · exact Or.inr (by simp [h])
      · exact Or.inr (by simp [h])
    · simp only [insertBySim, if_neg hlt, List.mem_cons] at h
      rcases h with h | h
      · exact Or.inr (by simp [h])
      · rcases ih h with h' | h'
        · exact Or.inl h'
        · exact Or.inr (by simp [h'])

/-- Sorting by similarity does not add rows. -/
theorem mem_sortBySimDesc {a : SearchRow} :
    ∀ {l}, a ∈ sortBySimDesc l → a ∈ l := by
  intro l
  induction l with
  | nil => intro h; exact absurd h (by simp [sortBySimDesc])
  | cons x xs ih =>
    intro h
    have hx : sortBySimDesc (x :: xs) = insertBySim x (sortBySimDesc xs) := rfl
    rw [hx] at h
    rcases mem_insertBySim h with h' | h'
    · simp [h']
    · exact List.mem_cons_of_mem x (ih h')

/-- C1 amended: every row returned by the similarity search stems from an
embedding row of the queried project whose similarity clears the
threshold — the `e.project_id` filter gives tenant isolation.  The
original claim's "document status completed / not deleted" restriction
does not exist in the query, so the search returns every persisted
embedding row that clears threshold and project scope regardless of its
document's status — see the counterexample. -/
theorem vectorSearch_project_scoped (db : Db)
    (sim : List ℚ → List ℚ → ℚ) (pid : ℕ) (v : List ℚ)
    (lim : ℕ) (thr : ℚ) (row : SearchRow)
    (hrow : row ∈ dbVectorSearch db sim pid v lim thr) :
    ∃ e, e ∈ db.embeddings ∧ e.projectId = pid ∧
      e.chunkId = row.chunkId ∧ e.documentId = row.documentId ∧
      thr < sim e.vector v := by
  unfold dbVectorSearch at hrow
  have h1 := (List.take_sublist lim _).subset hrow
  have h2 := mem_sortBySimDesc h1
  obtain ⟨e, he, hfe⟩ := List.mem_filterMap.mp h2
  cases hdc : db.chunks.find? (fun dc => dc.id == e.chunkId) with
  | none => rw [hdc] at hfe; cases hd : db.documents.find? (fun d => d.id == e.documentId) <;>
      rw [hd] at hfe <;> exact absurd hfe (by simp)
  | some dc =>
    rw [hdc] at hfe
    cases hd : db.documents.find? (fun d => d.id == e.documentId) with
    | none => rw [hd] at hfe; exact absurd hfe (by simp)
    | some d =>
      rw [hd] at hfe
      dsimp only at hfe
      by_cases hcond : e.projectId = pid ∧ thr < sim e.vector v
      · rw [if_pos hcond] at hfe
        obtain rfl := Option.some.inj hfe
        exact ⟨e, he, hcond.1, rfl, rfl, hcond.2⟩
      · rw [if_neg hcond] at hfe
        exact absurd hfe (by simp)

/-- Witness for C1 at a concrete store: the single row returned over `db0`
is backed by an embedding row of project 7 clearing the threshold. -/
theorem vectorSearch_project_scoped_witness :
    ∃ e, e ∈ db0.embeddings ∧ e.projectId = 7 ∧
      e.chunkId = (⟨100, 10, 1, toL "boom", toL "t", none, 1⟩ : SearchRow).chunkId ∧
      e.documentId = (⟨100, 10, 1, toL "boom", toL "t", none, 1⟩ : SearchRow).documentId ∧
      mkRat 7 10 < simEq e.vector [1] :=
  vectorSearch_project_scoped db0 simEq 7 [1] 5 (mkRat 7 10)
    ⟨100, 10, 1, toL "boom", toL "t", none, 1⟩ (by decide)

/-- C1 counterexample: the similarity search has **no** document-status
filter.  Over `db0`, whose only document has status `failed`, the query
still returns that document's chunk — refuting "every row returned ...
belongs to a document whose status is 'completed' and which is not
deleted" and its consequence that chunks of a failed ingestion run never
surface: a run whose final `updateDocument({status:'completed'})` write
throws after `createEmbeddingBatch` succeeded is recorded `failed` by the
`catch` with its embedding rows durably persisted, and this query returns
them. -/
theorem vectorSearch_returns_failed_doc :
    dbVectorSearch db0 simEq 7 [1] 5 (mkRat 7 10) =
      [⟨100, 10, 1, toL "boom", toL "t", none, 1⟩] ∧
    db0.documents = [⟨1, 7, DocStatus.failed, toL "t", none⟩] :=
  ⟨by decide, rfl⟩

/-! ## C3 — the sanitizer is bypassed on the embedding and ingestion paths -/

/-- C3 (code bug): despite the `// Sanitize user input` comment,
`sendMessage` passes `input.message` unchanged, so the text sent to the
embedding provider is the raw message (which the sanitizer would have
changed); likewise `processDocument` chunks and persists raw document
content that the sanitizer would have changed.  Only the prompt built
inside `generateRAGResponse` applies `sanitizeUserInput`. -/
theorem sendMessage_embeds_unsanitized :
    (sendMessageCore envOk 1 msgC3 ModelType.mini).2 = [msgC3] ∧
    sanitizeUserInput msgC3 ≠ msgC3 ∧
    (processDocument envOk 1 1 docC3).persistedChunks.map ChunkInsert.content =
      [docC3] ∧
    sanitizeUserInput docC3 ≠ docC3 :=
  ⟨by decide, by decide, by decide, by decide⟩

/-! ## C6 — sentence-based chunking -/

/-- Splitting off the head commutes with whitespace-stripping. -/
theorem stripWs_cons (c : Char) (s : Str) :
    stripWs (c :: s) = stripWs [c] ++ stripWs s := by
  by_cases h : isJsWs c <;> simp [stripWs, List.filter_cons, h]

/-- A whitespace head character vanishes under stripping. -/
theorem stripWs_cons_ws {c : Char} (h : isJsWs c = true) (s : Str) :
    stripWs (c :: s) = stripWs s := by
  simp [stripWs, List.filter_cons, h]

/-- Stripping distributes over append. -/
theorem stripWs_append (a b : Str) :
    stripWs (a ++ b) = stripWs a ++ stripWs b := by
  simp [stripWs, List.filter_append]

/-- A string whose trim is empty is all whitespace. -/
theorem stripWs_eq_nil_of_jsTrim {s : Str} (h : jsTrim s = []) :
    stripWs s = [] := by
  have h1 : (s.dropWhile isJsWs).reverse.dropWhile isJsWs = [] := by
    unfold jsTrim at h
    exact List.reverse_eq_nil_iff.mp h
  have h2 : ∀ x ∈ s.dropWhile isJsWs, isJsWs x := by
    intro x hx
    exact List.dropWhile_eq_nil_iff.mp h1 x (List.mem_reverse.mpr hx)
  have h3 : ∀ x ∈ s, isJsWs x := by
    intro x hx
    rw [← List.takeWhile_append_dropWhile (p := isJsWs) (l := s)] at hx
    rcases List.mem_append.mp hx with hx' | hx'
    · exact List.mem_takeWhile_imp hx'
    · exact h2 x hx'
  unfold stripWs
  rw [List.filter_eq_nil_iff]
  intro a ha
  simp [h3 a ha]

/-- Dropping whitespace-only segments (the `filter` of
`splitBySentences`) does not change the stripped concatenation. -/
theorem stripConcat_filter (l : List Str) :
    stripConcat (l.filter fun s => !(jsTrim s).isEmpty) = stripConcat l := by
  induction l with
  | nil => rfl
  | cons s ss ih =>
    by_cases hk : (jsTrim s).isEmpty
    · rw [List.filter_cons]
      have hdrop : (!(jsTrim s).isEmpty) = false := by simp [hk]
      rw [hdrop]
      simp only [Bool.false_eq_true, if_false]
      rw [ih]
      have : stripWs s = [] :=
        stripWs_eq_nil_of_jsTrim (List.isEmpty_iff.mp hk)
      simp [stripConcat, this]
    · rw [List.filter_cons]
      have hkeep : (!(jsTrim s).isEmpty) = true := by simp [hk]
      rw [hkeep]
      simp only [if_true]
      simp [stripConcat, ih]

/-- The sentence scanner preserves the non-whitespace characters: the
stripped concatenation of its segments is the stripped input, prefixed by
the pending segment (`acc`, held reversed). -/
theorem sbsGo_strip (l : Str) :
    (∀ acc, stripConcat (sbsGo (some acc) l) =
      stripWs acc.reverse ++ stripWs l) ∧
    stripConcat (sbsGo none l) = stripWs l := by
  induction l with
  | nil =>
    constructor
    · intro acc
      simp [sbsGo, stripConcat, stripWs]
    · simp [sbsGo, stripConcat, stripWs]
  | cons c cs ih =>
    obtain ⟨ihSome, ihNone⟩ := ih
    constructor
    · intro acc
      cases acc with
      | nil =>
        show stripConcat (sbsGo (some [c]) cs) = _
        rw [ihSome [c]]
        rw [show ([c] : Str).reverse = [c] from rfl,
          show (([] : Str)).reverse = [] from rfl,
          show stripWs ([] : Str) = [] from rfl, List.nil_append]
        exact (stripWs_cons c cs).symm
      | cons p acc' =>
        show stripConcat
            (if isSentEnd p && isJsWs c then
              (p :: acc').reverse :: sbsGo none cs
            else sbsGo (some (c :: p :: acc')) cs) = _
        by_cases hsplit : isSentEnd p && isJsWs c
        · rw [if_pos hsplit]
          have hws : isJsWs c = true := by
            have h' : isSentEnd p = true ∧ isJsWs c = true := by
              simpa using hsplit
            exact h'.2
          simp only [stripConcat]
          rw [ihNone, stripWs_cons_ws hws]
        · rw [if_neg hsplit]
          rw [ihSome (c :: p :: acc')]
          have : (c :: p :: acc').reverse = (p :: acc').reverse ++ [c] := by
            simp
          rw [this, stripWs_append, stripWs_cons c cs]
          simp [List.append_assoc]
    · show stripConcat
        (if isJsWs c then sbsGo none cs else sbsGo (some [c]) cs) = _
      by_cases hws : isJsWs c
      · rw [if_pos hws, ihNone, stripWs_cons_ws hws]
      · rw [if_neg hws, ihSome [c]]
        simp [stripWs_cons c cs]

/-- `splitBySentences` preserves the non-whitespace characters. -/
theorem splitBySentences_strip (content : Str) :
    stripConcat (splitBySentences content) = stripWs content := by
  unfold splitBySentences
  rw [stripConcat_filter]
  have h := (sbsGo_strip content).1 []
  simpa using h

/-- The stripped join-with-spaces is the stripped concatenation (tail
form). -/
theorem joinSpTail_strip (l : List Str) :
    stripWs (joinSpTail l) = stripConcat l := by
  induction l with
  | nil => rfl
  | cons s ss ih =>
    show stripWs (' ' :: (s ++ joinSpTail ss)) = _
    rw [stripWs_cons_ws (by decide), stripWs_append, ih]
    rfl

/-- The stripped join-with-spaces is the stripped concatenation. -/
theorem joinSp_strip (l : List Str) :
    stripWs (joinSp l) = stripConcat l := by
  cases l with
  | nil => rfl
  | cons s ss =>
    show stripWs (s ++ joinSpTail ss) = _
    rw [stripWs_append, joinSpTail_strip]
    rfl

/-- On a non-empty list the join tail starts with the separator. -/
theorem joinSpTail_ne {l : List Str} (h : l ≠ []) :
    joinSpTail l = ' ' :: joinSp l := by
  cases l with
  | nil => exact absurd rfl h
  | cons s ss => rfl

/-- Merging the two leading strings with a space does not change the
join. -/
theorem joinSp_glue (cur s : Str) (ss : List Str) :
    joinSp ((cur ++ ' ' :: s) :: ss) = joinSp (cur :: s :: ss) := by
  cases ss with
  | nil => simp [joinSp, joinSpTail]
  | cons x xs => simp [joinSp, joinSpTail, List.append_assoc]

/-- The accumulation loop never returns an empty chunk list when entered
with a non-empty current chunk. -/
theorem icLoop_ne_nil (t : ℕ) :
    ∀ (ss : List Str) (a : Char) (as : Str),
      icLoop t (a :: as) ss ≠ [] := by
  intro ss
  induction ss with
  | nil => intro a as; simp [icLoop]
  | cons s ss ih =>
    intro a as
    show (if ((a :: as) ++ ' ' :: s).length ≤ t then
        icLoop t ((a :: as) ++ ' ' :: s) ss
      else (a :: as) :: icLoop t s ss) ≠ []
    by_cases hle : ((a :: as) ++ ' ' :: s).length ≤ t
    · rw [if_pos hle]; exact ih a _
    · rw [if_neg hle]; simp

/-- Joining the loop's output equals joining the pending chunk with the
remaining sentences (non-empty pending chunk). -/
theorem icLoop_joinSp_ne (t : ℕ) :
    ∀ (ss : List Str) (cur : Str), (∀ s ∈ ss, s ≠ []) → cur ≠ [] →
      joinSp (icLoop t cur ss) = joinSp (cur :: ss) := by
  intro ss
  induction ss with
  | nil =>
    intro cur hss hcur
    cases cur with
    | nil => exact absurd rfl hcur
    | cons a as => simp [icLoop, joinSp]
  | cons s ss ih =>
    intro cur hss hcur
    have hs : s ≠ [] := hss s (by simp)
    have hss' : ∀ x ∈ ss, x ≠ [] := fun x hx => hss x (by simp [hx])
    cases cur with
    | nil => exact absurd rfl hcur
    | cons a as =>
      show joinSp (if ((a :: as) ++ ' ' :: s).length ≤ t then
          icLoop t ((a :: as) ++ ' ' :: s) ss
        else (a :: as) :: icLoop t s ss) = _
      by_cases hle : ((a :: as) ++ ' ' :: s).length ≤ t
      · rw [if_pos hle, ih ((a :: as) ++ ' ' :: s) hss' (by simp),
          joinSp_glue]
      · rw [if_neg hle]
        have hne : icLoop t s ss ≠ [] := by
          obtain ⟨b, bs, rfl⟩ : ∃ b bs, s = b :: bs := by
            cases s with
            | nil => exact absurd rfl hs
            | cons b bs => exact ⟨b, bs, rfl⟩
          exact icLoop_ne_nil t ss b bs
        calc joinSp ((a :: as) :: icLoop t s ss)
            = (a :: as) ++ joinSpTail (icLoop t s ss) := rfl
          _ = (a :: as) ++ (' ' :: joinSp (icLoop t s ss)) := by
              rw [joinSpTail_ne hne]
          _ = (a :: as) ++ (' ' :: joinSp (s :: ss)) := by
              rw [ih s hss' hs]
          _ = joinSp ((a :: as) :: s :: ss) := rfl

/-- Joining the loop's output from the initial empty chunk equals joining
the sentences. -/
theorem icLoop_joinSp_nil (t : ℕ) (ss : List Str) (h : ∀ s ∈ ss, s ≠ []) :
    joinSp (icLoop t [] ss) = joinSp ss := by
  cases ss with
  | nil => rfl
  | cons s ss' =>
    have hs : s ≠ [] := h s (by simp)
    have hss' : ∀ x ∈ ss', x ≠ [] := fun x hx => h x (by simp [hx])
    show joinSp (if s.length ≤ t then icLoop t s ss'
      else icLoop t s ss') = _
    rw [ite_self]
    exact icLoop_joinSp_ne t ss' s hss' hs

/-- Every sentence emitted by `splitBySentences` is non-empty. -/
theorem splitBySentences_ne_nil (content : Str) :
    ∀ s ∈ splitBySentences content, s ≠ [] := by
  intro s hs
  have hk := (List.mem_filter.mp hs).2
  rintro rfl
  simp [jsTrim] at hk

/-- Size invariant of the accumulation loop: every emitted chunk is
within the target or is one of the sentences `S` and oversized. -/
theorem icLoop_sizes (t : ℕ) (S : List Str) :
    ∀ (ss : List Str) (cur : Str), (∀ s ∈ ss, s ∈ S) →
      (cur = [] ∨ cur.length ≤ t ∨ (cur ∈ S ∧ t < cur.length)) →
      ∀ ch ∈ icLoop t cur ss, ch.length ≤ t ∨ (ch ∈ S ∧ t < ch.length) := by
  intro ss
  induction ss with
  | nil =>
    intro cur hss hcur ch hch
    cases cur with
    | nil => simp [icLoop] at hch
    | cons a as =>
      simp only [icLoop, List.isEmpty_cons, if_false, Bool.false_eq_true,
        List.mem_singleton] at hch
      subst hch
      rcases hcur with h | h | h
      · exact absurd h (by simp)
      · exact Or.inl h
      · exact Or.inr h
  | cons s ss ih =>
    intro cur hss hcur ch hch
    have hsS : s ∈ S := hss s (by simp)
    have hss' : ∀ x ∈ ss, x ∈ S := fun x hx => hss x (by simp [hx])
    simp only [icLoop] at hch
    by_cases hle : (if cur.isEmpty then s else cur ++ ' ' :: s).length ≤ t
    · rw [if_pos hle] at hch
      exact ih _ hss' (Or.inr (Or.inl hle)) ch hch
    · rw [if_neg hle] at hch
      by_cases hce : cur.isEmpty
      · rw [if_pos hce] at hch
        have hgt : t < s.length := by
          rw [if_pos hce] at hle; omega
        exact ih s hss' (Or.inr (Or.inr ⟨hsS, hgt⟩)) ch hch
      · rw [if_neg hce] at hch
        rcases List.mem_cons.mp hch with rfl | hch'
        · rcases hcur with h | h | h
          · exact absurd h (by simp [List.isEmpty_iff] at hce; exact hce)
          · exact Or.inl h
          · exact Or.inr h
        · have hinv : s = [] ∨ s.length ≤ t ∨ (s ∈ S ∧ t < s.length) := by
            by_cases hsl : s.length ≤ t
            · exact Or.inr (Or.inl hsl)
            · exact Or.inr (Or.inr ⟨hsS, by omega⟩)
          exact ih s hss' hinv ch hch'

/-- C6: sentence-based chunking preserves the text's content modulo
whitespace (the chunks joined with single spaces strip to exactly the
stripped input); no chunk exceeds `targetSize` except a chunk that is a
single sentence longer than the target; and empty input yields an empty
sequence, not a single empty chunk. -/
theorem intelligentChunk_spec (content : Str) (t : ℕ)
    (_hne : content ≠ []) (_ht : 0 < t) :
    stripWs (joinSp (intelligentChunk content t)) = stripWs content ∧
    (∀ ch ∈ intelligentChunk content t,
      ch.length ≤ t ∨ (ch ∈ splitBySentences content ∧ t < ch.length)) ∧
    ∀ t', intelligentChunk [] t' = [] := by
  refine ⟨?_, ?_, fun t' => rfl⟩
  · unfold intelligentChunk
    rw [icLoop_joinSp_nil t _ (splitBySentences_ne_nil content),
      joinSp_strip, splitBySentences_strip]
  · intro ch hch
    exact icLoop_sizes t (splitBySentences content) _ []
      (fun s hs => hs) (Or.inl rfl) ch hch

/-- Witness for C6 on `"One. Two! Three?"` with target 10. -/
theorem intelligentChunk_spec_witness :
    stripWs (joinSp (intelligentChunk (toL "One. Two! Three?") 10)) =
      stripWs (toL "One. Two! Three?") :=
  (intelligentChunk_spec (toL "One. Two! Three?") 10 (by decide)
    (by decide)).1

end Botbase
